import Mathlib

/-!
Verification of the PNG-to-ICNS converter (`tools/png_to_icns.py`).

The development shallowly embeds the converter's core: the icon size/type
table, the chunk-selection loop of `create_icns`, the label table of
`inspect_icns`, the output-path resolution, the temp-directory lifecycle
of `create_icns`, and the ICNS container byte layout (serialize/decode),
the latter modelled from the specification since it lives in the external
`icnsutil` library.
-/

namespace PngToIcns

/-- A container chunk: a 4-byte type tag plus an opaque payload.
`typeId` is the tag as raw bytes; `payload` is the encoded image bytes. -/
structure Chunk where
  typeId : List Nat
  payload : List Nat
deriving DecidableEq, Repr

/-- Byte view of a tag string (ASCII code points of its characters). -/
def strBytes (s : String) : List Nat := s.data.map Char.toNat

/-- The encode-side size table, translated from `ICON_TYPES`
(tuples of type key, pixel dimension, description). -/
def ICON_TYPES : List (String × Nat × String) :=
  [ ("icp4", 16, "16x16"),
    ("icp5", 32, "32x32"),
    ("icp6", 64, "64x64"),
    ("ic07", 128, "128x128"),
    ("ic08", 256, "256x256"),
    ("ic09", 512, "512x512"),
    ("ic10", 1024, "1024x1024 (512@2x)") ]

/-- The inspect-side label table, translated from `type_info` in
`inspect_icns`. -/
def type_info : List (String × String) :=
  [ ("icp4", "16x16"),
    ("icp5", "32x32"),
    ("icp6", "64x64"),
    ("ic07", "128x128"),
    ("ic08", "256x256"),
    ("ic09", "512x512"),
    ("ic10", "1024x1024 (512@2x)"),
    ("ic11", "32x32 (16@2x)"),
    ("ic12", "64x64 (32@2x)"),
    ("ic13", "256x256 (128@2x)"),
    ("ic14", "512x512 (256@2x)") ]

/-- Label lookup, translated from `type_info.get(key, 'unknown')` in
`inspect_icns`: first matching key, or the sentinel when absent. -/
def labelFor (k : String) : String :=
  ((type_info.find? fun p => p.1 == k).map fun p => p.2).getD "unknown"

/-- The spec's SizeTable contract, written from the spec's words for
comparison with the encode loop: every table entry whose dimension is
at most `d`, in canonical order. -/
def entriesUpTo (d : Nat) : List (String × Nat × String) :=
  ICON_TYPES.filter fun e => e.2.1 ≤ d

/-- The chunk list built by the loop in `create_icns` (lines 77-88):
iterate `ICON_TYPES` in order and append a chunk for each entry whose
dimension is at most `max w h`, with the resampled payload. -/
def create_icns_chunks (resample : Nat → List Nat) (w h : Nat) : List Chunk :=
  ICON_TYPES.foldl
    (fun acc e =>
      if e.2.1 ≤ max w h then
        acc ++ [{ typeId := strBytes e.1, payload := resample e.2.1 }]
      else acc)
    []

/-- Modelled from the spec: the container header magic, the 4 bytes of
the tag that opens every container. -/
def MAGIC : List Nat := strBytes "icns"

/-- Modelled from the spec: big-endian 4-byte encoding of an unsigned
integer (the container's length-field width). -/
def be32 (n : Nat) : List Nat :=
  [n / 16777216 % 256, n / 65536 % 256, n / 256 % 256, n % 256]

/-- Modelled from the spec: big-endian decoding of a byte list. -/
def be32dec (bs : List Nat) : Nat := bs.foldl (fun a b => a * 256 + b) 0

/-- Modelled from the spec: on-disk bytes of one chunk — 4-byte tag,
4-byte big-endian payload length, then the payload. -/
def chunkBytes (c : Chunk) : List Nat :=
  c.typeId ++ be32 c.payload.length ++ c.payload

/-- Modelled from the spec: concatenated bytes of a chunk sequence. -/
def chunksBytes (cs : List Chunk) : List Nat := (cs.map chunkBytes).flatten

/-- Modelled from the spec: full container bytes — magic, declared total
length (header plus all chunks), then the chunks. -/
def serialize (cs : List Chunk) : List Nat :=
  MAGIC ++ be32 (8 + (chunksBytes cs).length) ++ chunksBytes cs

/-- Modelled from the spec: the decode-side error taxonomy. -/
inductive DecodeError
  | malformedHeader
  | truncatedChunk
  | trailingBytes
deriving DecidableEq, Repr

/-- Modelled from the spec: the chunk-reading loop of decode. `buf` is
the bytes after the cursor, `rem` the declared bytes left before the
declared total. A chunk is a 4-byte tag, a 4-byte big-endian length,
then exactly that many payload bytes; `TruncatedChunk` when the buffer
holds fewer bytes than a chunk needs, `TrailingBytes` when the cursor
would land past (or stop short of) the declared total. -/
def decodeChunks (buf : List Nat) (rem : Nat) :
    Except DecodeError (List (List Nat × List Nat)) :=
  if rem = 0 then
    if buf = [] then .ok [] else .error .trailingBytes
  else if rem < 8 then .error .trailingBytes
  else if buf.length < 8 then .error .truncatedChunk
  else
    let tag := buf.take 4
    let len := be32dec ((buf.drop 4).take 4)
    let rest := buf.drop 8
    if rest.length < len then .error .truncatedChunk
    else if rem < 8 + len then .error .trailingBytes
    else
      match decodeChunks (rest.drop len) (rem - (8 + len)) with
      | .error e => .error e
      | .ok tail => .ok ((tag, rest.take len) :: tail)
termination_by rem
decreasing_by omega

/-- Modelled from the spec: container decode. Checks the magic and a
sane declared length, then reads chunks until the declared total. -/
def decode (buf : List Nat) : Except DecodeError (List (List Nat × List Nat)) :=
  if buf.length < 8 then .error .malformedHeader
  else if buf.take 4 ≠ MAGIC then .error .malformedHeader
  else
    let total := be32dec ((buf.drop 4).take 4)
    if total < 8 then .error .malformedHeader
    else decodeChunks (buf.drop 8) (total - 8)

/-- The warning condition of `create_icns` line 65: the source is warned
about when either dimension is below 512. -/
def size_check_warns (w h : Nat) : Bool :=
  decide (w < 512) || decide (h < 512)

/-- Index of the last dot in a file name, if any. -/
def lastDot : List Char → Option Nat
  | [] => none
  | c :: cs =>
    match lastDot cs with
    | some i => some (i + 1)
    | none => if c = '.' then some 0 else none

/-- `Path.with_suffix` on a file name, as `pathlib` implements it: the
suffix starts at the last dot provided that dot is neither the leading
character nor the final one; otherwise the new suffix is appended. -/
def with_suffix (name suf : List Char) : List Char :=
  match lastDot name with
  | some i => if 0 < i ∧ i < name.length - 1 then name.take i ++ suf else name ++ suf
  | none => name ++ suf

/-- Output-path resolution of `create_icns` (lines 49-52): replace the
input's suffix with `.icns` when no output path is given, otherwise use
the given path unchanged. -/
def resolve_output (input : List Char) : Option (List Char) → List Char
  | none => with_suffix input ['.', 'i', 'c', 'n', 's']
  | some q => q

/-- Errors `create_icns` can raise. -/
inductive EncError
  | inputNotFound
  | resampleFailed
  | writeFailed
deriving DecidableEq, Repr

/-- Observable state threaded through a `create_icns` run: allocated
scratch directories, the written output file (path and bytes), and
whether the small-source warning was printed. -/
structure RunState where
  tempDirs : List Nat
  written : Option (List Char × List Nat)
  warned : Bool
deriving DecidableEq, Repr

/-- Python `try`/`finally`: run the body to its outcome (ok or error),
then apply the finalizer to whatever state the body left. -/
def tryFinallyS {ε α σ : Type} (body : σ → Except ε α × σ) (fin : σ → σ)
    (s : σ) : Except ε α × σ :=
  let p := body s
  (p.1, fin p.2)

/-- The resample-and-add loop of `create_icns` with a fallible
resampler: entries are visited in table order, skipped when larger than
`maxDim`, and a resampler failure aborts the loop. -/
def encodeLoop (resample : Nat → Except Unit (List Nat)) (maxDim : Nat) :
    List (String × Nat × String) → Except Unit (List Chunk)
  | [] => .ok []
  | e :: rest =>
    if e.2.1 ≤ maxDim then
      match resample e.2.1 with
      | .error u => .error u
      | .ok bytes =>
        match encodeLoop resample maxDim rest with
        | .error u => .error u
        | .ok cs => .ok ({ typeId := strBytes e.1, payload := bytes } :: cs)
    else encodeLoop resample maxDim rest

/-- `create_icns` as a state-passing run: input-existence check, output
path resolution, the size warning, scratch-directory acquisition, then
the resample loop and the container write inside `try`/`finally` with
the scratch directory removed on every exit path. `d` names the fresh
scratch directory, `writeOk` tells whether the final write succeeds. -/
def create_icns_run (inputExists : Bool) (resample : Nat → Except Unit (List Nat))
    (writeOk : Bool) (input : List Char) (outPath : Option (List Char))
    (w h : Nat) (d : Nat) (s : RunState) : Except EncError (List Char) × RunState :=
  if inputExists = false then (.error .inputNotFound, s)
  else
    let out := resolve_output input outPath
    let s0 : RunState := { s with warned := size_check_warns w h }
    let s1 : RunState := { s0 with tempDirs := d :: s0.tempDirs }
    tryFinallyS
      (fun st =>
        match encodeLoop resample (max w h) ICON_TYPES with
        | .error _ => (.error .resampleFailed, st)
        | .ok cs =>
          if writeOk then (.ok out, { st with written := some (out, serialize cs) })
          else (.error .writeFailed, st))
      (fun st => { st with tempDirs := st.tempDirs.erase d })
      s1

/-- An always-succeeding resampler returning empty payloads, used to
instantiate run theorems at concrete inputs. -/
def rsOk : Nat → Except Unit (List Nat) := fun _ => .ok []

/-- A pristine run state. -/
def st0 : RunState := { tempDirs := [], written := none, warned := false }

/-- A one-chunk container content used to instantiate codec theorems. -/
def csW : List Chunk := [{ typeId := strBytes "icp4", payload := [1, 2, 3] }]

/-! ## Helper lemmas -/

/-- The append-accumulating fold of the encode loop equals a
filter-then-map over the table. -/
theorem foldl_append_filter (r : Nat → List Nat) (m : Nat)
    (l : List (String × Nat × String)) (acc : List Chunk) :
    l.foldl
        (fun a e =>
          if e.2.1 ≤ m then
            a ++ [{ typeId := strBytes e.1, payload := r e.2.1 }]
          else a)
        acc
      = acc ++ (l.filter fun e => e.2.1 ≤ m).map
          fun e => { typeId := strBytes e.1, payload := r e.2.1 } := by
  induction l generalizing acc with
  | nil => simp
  | cons e t ih =>
    by_cases hc : e.2.1 ≤ m
    · simp [List.foldl, hc, ih, List.filter_cons]
    · simp [List.foldl, hc, ih, List.filter_cons]

/-- The encode loop builds exactly the chunks of the table entries whose
dimension fits the source, in table order. -/
theorem create_icns_chunks_eq (r : Nat → List Nat) (w h : Nat) :
    create_icns_chunks r w h
      = (ICON_TYPES.filter fun e => e.2.1 ≤ max w h).map
          fun e => { typeId := strBytes e.1, payload := r e.2.1 } := by
  simpa [create_icns_chunks] using foldl_append_filter r (max w h) ICON_TYPES []

/-- A tag never in the table is never among the emitted chunk tags. -/
theorem not_emitted (r : Nat → List Nat) (w h : Nat) (t : List Nat)
    (ht : t ∉ ICON_TYPES.map fun e => strBytes e.1) :
    ((create_icns_chunks r w h).map Chunk.typeId).contains t = false := by
  rw [create_icns_chunks_eq, List.map_map]
  rw [Bool.eq_false_iff]
  intro hc
  have hm : t ∈ (ICON_TYPES.filter fun e => e.2.1 ≤ max w h).map
      (Chunk.typeId ∘ fun e => { typeId := strBytes e.1, payload := r e.2.1 }) :=
    List.elem_iff.mp hc
  rcases List.mem_map.mp hm with ⟨e, he, rfl⟩
  exact ht (List.mem_map_of_mem _ (List.mem_of_mem_filter he))

/-! ## Claim theorems -/

/-- C1: for every source of dimensions `(w, h)`, the encode loop appends
exactly one chunk per table entry with dimension at most `max w h`, in
the table's canonical order; a 16x16 source yields exactly the 16px
chunk and a 1024x1024 source yields all 7 chunks in canonical order. -/
theorem c1_chunk_selection (r : Nat → List Nat) (w h : Nat) :
    (create_icns_chunks r w h).map Chunk.typeId
        = (entriesUpTo (max w h)).map (fun e => strBytes e.1)
      ∧ (create_icns_chunks r 16 16).map Chunk.typeId = [strBytes "icp4"]
      ∧ (create_icns_chunks r 1024 1024).map Chunk.typeId
        = ICON_TYPES.map fun e => strBytes e.1 := by
  refine ⟨?_, rfl, rfl⟩
  rw [create_icns_chunks_eq, List.map_map]
  rfl

/-- C5: the label lookup is total: `labelFor "ic07"` is `"128x128"`,
and any tag absent from the table resolves to the `"unknown"`
sentinel rather than raising. -/
theorem c5_label_lookup (k : String)
    (h : (type_info.all fun p => p.1 != k) = true) :
    labelFor "ic07" = "128x128" ∧ labelFor k = "unknown" := by
  constructor
  · rfl
  · have hn : type_info.find? (fun p => p.1 == k) = none := by
      rw [List.find?_eq_none]
      intro x hx
      have hb := List.all_eq_true.mp h x hx
      simp only [bne_iff_ne, ne_eq] at hb
      simp [hb]
    simp [labelFor, hn]

/-- C5 witness: the lookup at the concrete tags of the claim. -/
theorem c5_label_lookup_w :
    labelFor "ic07" = "128x128" ∧ labelFor "zzzz" = "unknown" :=
  c5_label_lookup "zzzz" (by decide)

/-- C8: every container built by the encode loop has pairwise-distinct
chunk type tags, for any source size and resampler. -/
theorem c8_distinct_tags (r : Nat → List Nat) (w h : Nat) :
    ((create_icns_chunks r w h).map Chunk.typeId).Nodup := by
  rw [create_icns_chunks_eq, List.map_map]
  show ((ICON_TYPES.filter fun e => e.2.1 ≤ max w h).map fun e => strBytes e.1).Nodup
  have hall : ((ICON_TYPES.map fun e => strBytes e.1)).Nodup := by decide
  exact hall.sublist ((List.filter_sublist ICON_TYPES).map fun e => strBytes e.1)

/-- C9: the inspect-mode label table strictly extends the encode table:
every encode tag has an inspect label, the retina tags ic11-ic14 resolve
to descriptive labels rather than the unknown sentinel, and the encode
loop can never emit any of them. -/
theorem c9_inspect_table (r : Nat → List Nat) (w h : Nat) :
    (ICON_TYPES.all fun e => type_info.any fun p => p.1 == e.1) = true
      ∧ labelFor "ic11" = "32x32 (16@2x)"
      ∧ labelFor "ic12" = "64x64 (32@2x)"
      ∧ labelFor "ic13" = "256x256 (128@2x)"
      ∧ labelFor "ic14" = "512x512 (256@2x)"
      ∧ ((create_icns_chunks r w h).map Chunk.typeId).contains (strBytes "ic11") = false
      ∧ ((create_icns_chunks r w h).map Chunk.typeId).contains (strBytes "ic12") = false
      ∧ ((create_icns_chunks r w h).map Chunk.typeId).contains (strBytes "ic13") = false
      ∧ ((create_icns_chunks r w h).map Chunk.typeId).contains (strBytes "ic14") = false :=
  ⟨by decide, rfl, rfl, rfl, rfl,
    not_emitted r w h _ (by decide), not_emitted r w h _ (by decide),
    not_emitted r w h _ (by decide), not_emitted r w h _ (by decide)⟩

/-- A name without a dot has no last dot. -/
theorem lastDot_eq_none (xs : List Char) (h : '.' ∉ xs) : lastDot xs = none := by
  induction xs with
  | nil => rfl
  | cons c t ih =>
    have hc : ¬ c = '.' := fun e => h (e ▸ List.mem_cons_self c t)
    have ht : '.' ∉ t := fun m => h (List.mem_cons_of_mem _ m)
    simp [lastDot, ih ht, hc]

/-- The last dot of `stem ++ "." ++ ext` sits at `stem.length` when the
extension itself is dot-free. -/
theorem lastDot_append (stem ext : List Char) (hext : '.' ∉ ext) :
    lastDot (stem ++ '.' :: ext) = some stem.length := by
  induction stem with
  | nil => simp [lastDot, lastDot_eq_none ext hext]
  | cons c t ih => simp [lastDot, ih]

/-- C10: when the caller supplies no output path, the output is the
input path with its extension replaced by `.icns`; a supplied output
path is used exactly as given. -/
theorem c10_output_path (stem ext p o : List Char)
    (h1 : stem ≠ []) (h2 : ext ≠ []) (h3 : '.' ∉ ext) :
    resolve_output (stem ++ '.' :: ext) none = stem ++ ['.', 'i', 'c', 'n', 's']
      ∧ resolve_output p (some o) = o := by
  refine ⟨?_, rfl⟩
  show with_suffix (stem ++ '.' :: ext) ['.', 'i', 'c', 'n', 's']
      = stem ++ ['.', 'i', 'c', 'n', 's']
  have hs : 0 < stem.length := List.length_pos.mpr h1
  have he : 0 < ext.length := List.length_pos.mpr h2
  simp only [with_suffix, lastDot_append stem ext h3]
  rw [if_pos ⟨hs, by simp [List.length_append]; omega⟩]
  rw [List.take_left' rfl]

/-- C10 witness: resolving the output for `logo.png`. -/
theorem c10_output_path_w :
    resolve_output (['l', 'o', 'g', 'o'] ++ '.' :: ['p', 'n', 'g']) none
        = ['l', 'o', 'g', 'o'] ++ ['.', 'i', 'c', 'n', 's']
      ∧ resolve_output ['x'] (some ['y']) = ['y'] :=
  c10_output_path ['l', 'o', 'g', 'o'] ['p', 'n', 'g'] ['x'] ['y']
    (by decide) (by decide) (by decide)

/-- C7: on every exit path of `create_icns` — missing input, resampler
failure, write failure, or normal return — the scratch directory is
released, so the run's final directory set equals the initial one. -/
theorem c7_temp_released (inputExists : Bool)
    (resample : Nat → Except Unit (List Nat)) (writeOk : Bool)
    (input : List Char) (outPath : Option (List Char)) (w h d : Nat)
    (s : RunState) :
    ((create_icns_run inputExists resample writeOk input outPath w h d s).2).tempDirs
      = s.tempDirs := by
  cases inputExists
  · simp [create_icns_run]
  · rcases hE : encodeLoop resample (max w h) ICON_TYPES with u | cs <;>
      cases writeOk <;>
        simp [create_icns_run, tryFinallyS, hE, List.erase_cons_head]

/-- C2 counterexample: encoding an 8x8 source does not fail — the run
returns success and writes the zero-chunk container to the resolved
output path. -/
theorem c2_empty_source_counterexample :
    (create_icns_run true rsOk true ['a'] none 8 8 0 st0).1
        = .ok ['a', '.', 'i', 'c', 'n', 's']
      ∧ (create_icns_run true rsOk true ['a'] none 8 8 0 st0).2.written
        = some (['a', '.', 'i', 'c', 'n', 's'], [105, 99, 110, 115, 0, 0, 0, 8]) := by
  constructor <;> rfl

/-- C2 amended: for a source whose larger dimension is below 16, the
encode adds zero chunks and (when the write succeeds) still returns
success, writing the empty-but-valid zero-chunk container. -/
theorem c2_empty_source_amended (resample : Nat → Except Unit (List Nat))
    (input : List Char) (outPath : Option (List Char)) (w h d : Nat)
    (s : RunState) (hsmall : max w h < 16) :
    (create_icns_run true resample true input outPath w h d s).1
        = .ok (resolve_output input outPath)
      ∧ (create_icns_run true resample true input outPath w h d s).2.written
        = some (resolve_output input outPath, serialize []) := by
  have h16 : ¬ (16 ≤ max w h) := by omega
  have h32 : ¬ (32 ≤ max w h) := by omega
  have h64 : ¬ (64 ≤ max w h) := by omega
  have h128 : ¬ (128 ≤ max w h) := by omega
  have h256 : ¬ (256 ≤ max w h) := by omega
  have h512 : ¬ (512 ≤ max w h) := by omega
  have h1024 : ¬ (1024 ≤ max w h) := by omega
  have hloop : encodeLoop resample (max w h) ICON_TYPES = .ok [] := by
    simp [encodeLoop, ICON_TYPES, h16, h32, h64, h128, h256, h512, h1024]
  simp [create_icns_run, tryFinallyS, hloop]

/-- C2 amended witness: the 8x8 run. -/
theorem c2_empty_source_amended_w :
    (create_icns_run true rsOk true ['a'] none 8 8 0 st0).1
        = .ok (resolve_output ['a'] none)
      ∧ (create_icns_run true rsOk true ['a'] none 8 8 0 st0).2.written
        = some (resolve_output ['a'] none, serialize []) :=
  c2_empty_source_amended rsOk ['a'] none 8 8 0 st0 (by decide)

/-- C3 counterexample: a 1024x256 source — where only one dimension is
below 512 — still triggers the warning, refuting the claim that it is
raised exactly when both dimensions are below 512. -/
theorem c3_warn_counterexample :
    (create_icns_run true rsOk true ['a'] none 1024 256 0 st0).2.warned = true
      ∧ (decide (1024 < 512) && decide (256 < 512)) = false := by
  constructor <;> rfl

/-- C3 amended: the warning is raised exactly when at least one source
dimension is below 512, and it is non-fatal — the run's result and
written output depend only on the source's larger dimension, so a
warned run produces the same output as an unwarned run with the same
larger dimension. -/
theorem c3_warn_amended (resample : Nat → Except Unit (List Nat))
    (writeOk : Bool) (input : List Char) (outPath : Option (List Char))
    (w h w' h' d : Nat) (s : RunState) (hmax : max w' h' = max w h) :
    ((create_icns_run true resample writeOk input outPath w h d s).2.warned = true
        ↔ (w < 512 ∨ h < 512))
      ∧ (create_icns_run true resample writeOk input outPath w' h' d s).1
        = (create_icns_run true resample writeOk input outPath w h d s).1
      ∧ (create_icns_run true resample writeOk input outPath w' h' d s).2.written
        = (create_icns_run true resample writeOk input outPath w h d s).2.written := by
  rcases hE : encodeLoop resample (max w h) ICON_TYPES with u | cs <;>
    cases writeOk <;>
      simp [create_icns_run, tryFinallyS, hmax, hE, size_check_warns]

/-- C3 amended witness: a warned 1024x256 run matches the 256x1024 run
with the same larger dimension. -/
theorem c3_warn_amended_w :
    ((create_icns_run true rsOk true ['a'] none 1024 256 0 st0).2.warned = true
        ↔ (1024 < 512 ∨ 256 < 512))
      ∧ (create_icns_run true rsOk true ['a'] none 256 1024 0 st0).1
        = (create_icns_run true rsOk true ['a'] none 1024 256 0 st0).1
      ∧ (create_icns_run true rsOk true ['a'] none 256 1024 0 st0).2.written
        = (create_icns_run true rsOk true ['a'] none 1024 256 0 st0).2.written :=
  c3_warn_amended rsOk true ['a'] none 1024 256 256 1024 0 st0 (by decide)

/-! ## Container codec lemmas -/

/-- Chunk-stream bytes of a cons, grouped as the 8 header bytes and the
payload-plus-rest. -/
theorem chunksBytes_cons (c : Chunk) (cs : List Chunk) :
    chunksBytes (c :: cs)
      = (c.typeId ++ be32 c.payload.length) ++ (c.payload ++ chunksBytes cs) := by
  simp [chunksBytes, chunkBytes, List.append_assoc]

/-- Every chunk's payload is no longer than the whole chunk stream. -/
theorem payload_le (cs : List Chunk) (c : Chunk) (hc : c ∈ cs) :
    c.payload.length ≤ (chunksBytes cs).length := by
  induction cs with
  | nil => cases hc
  | cons a t ih =>
    rw [chunksBytes_cons]
    rcases List.mem_cons.mp hc with rfl | hc
    · simp [List.length_append]
      omega
    · have := ih hc
      simp [List.length_append]
      omega

/-- Big-endian 4-byte encoding decodes to the encoded value. -/
theorem be32dec_be32 (n : Nat) (h : n < 4294967296) : be32dec (be32 n) = n := by
  simp [be32, be32dec]
  omega

/-- Decoding the chunk stream of a well-formed chunk list, with the
declared remaining length equal to the stream length, recovers every
(tag, payload) pair in order. -/
theorem decodeChunks_ok (cs : List Chunk)
    (h4 : ∀ c ∈ cs, c.typeId.length = 4)
    (hp : ∀ c ∈ cs, c.payload.length < 4294967296) :
    decodeChunks (chunksBytes cs) (chunksBytes cs).length
      = .ok (cs.map fun c => (c.typeId, c.payload)) := by
  induction cs with
  | nil => simp [chunksBytes, decodeChunks]
  | cons c cs ih =>
    have h4c : c.typeId.length = 4 := h4 c (List.mem_cons_self c cs)
    have hpc : c.payload.length < 4294967296 := hp c (List.mem_cons_self c cs)
    have h4r : ∀ x ∈ cs, x.typeId.length = 4 := fun x hx => h4 x (List.mem_cons_of_mem c hx)
    have hpr : ∀ x ∈ cs, x.payload.length < 4294967296 := fun x hx => hp x (List.mem_cons_of_mem c hx)
    rw [chunksBytes_cons]
    set A := c.typeId ++ be32 c.payload.length with hAdef
    set B := c.payload ++ chunksBytes cs with hBdef
    have hA : A.length = 8 := by simp [hAdef, be32, h4c]
    have hBlen : B.length = c.payload.length + (chunksBytes cs).length := by
      simp [hBdef]
    have hlen : (A ++ B).length = 8 + c.payload.length + (chunksBytes cs).length := by
      simp [List.length_append, hA, hBlen]
      omega
    have ht1 : (A ++ B).take 4 = c.typeId := by
      rw [hAdef, List.append_assoc]
      exact List.take_left' h4c
    have ht2 : ((A ++ B).drop 4).take 4 = be32 c.payload.length := by
      rw [hAdef, List.append_assoc, List.drop_left' h4c]
      exact List.take_left' rfl
    have ht3 : (A ++ B).drop 8 = B := List.drop_left' hA
    have htp : B.take c.payload.length = c.payload := by
      rw [hBdef]
      exact List.take_left' rfl
    have hdp : B.drop c.payload.length = chunksBytes cs := by
      rw [hBdef]
      exact List.drop_left' rfl
    have hrem : (A ++ B).length - (8 + c.payload.length) = (chunksBytes cs).length := by
      omega
    rw [decodeChunks]
    rw [if_neg (by omega), if_neg (by omega), if_neg (by omega)]
    simp only [ht1, ht2, ht3, htp, hdp, hrem, be32dec_be32 c.payload.length hpc]
    rw [if_neg (by omega), if_neg (by omega)]
    rw [ih h4r hpr]
    rfl

/-- Decoding a serialized well-formed chunk list recovers the chunks. -/
theorem decode_serialize (cs : List Chunk)
    (h4 : ∀ c ∈ cs, c.typeId.length = 4)
    (h32 : 8 + (chunksBytes cs).length < 4294967296) :
    decode (serialize cs) = .ok (cs.map fun c => (c.typeId, c.payload)) := by
  have hp : ∀ c ∈ cs, c.payload.length < 4294967296 := by
    intro c hc
    have := payload_le cs c hc
    omega
  have hser : serialize cs
      = (MAGIC ++ be32 (8 + (chunksBytes cs).length)) ++ chunksBytes cs := by
    simp [serialize, List.append_assoc]
  have hH : (MAGIC ++ be32 (8 + (chunksBytes cs).length)).length = 8 := by
    simp [MAGIC, be32, strBytes]
  have hlen : (serialize cs).length = 8 + (chunksBytes cs).length := by
    rw [hser]
    simp [List.length_append, MAGIC, strBytes, be32]
    omega
  have hmag : (serialize cs).take 4 = MAGIC := by
    rw [hser, List.append_assoc]
    exact List.take_left' rfl
  have htot : be32dec (((serialize cs).drop 4).take 4)
      = 8 + (chunksBytes cs).length := by
    rw [hser, List.append_assoc, List.drop_left' (by simp [MAGIC, strBytes])]
    rw [List.take_left' (show (be32 (8 + (chunksBytes cs).length)).length = 4 from rfl)]
    exact be32dec_be32 _ h32
  have h8 : (serialize cs).drop 8 = chunksBytes cs := by
    rw [hser]
    exact List.drop_left' hH
  have hsub : 8 + (chunksBytes cs).length - 8 = (chunksBytes cs).length := by
    omega
  rw [decode]
  rw [if_neg (by omega), if_neg (by simp [hmag])]
  simp only [htot, h8, hsub]
  rw [if_neg (by omega)]
  exact decodeChunks_ok cs h4 hp

/-- Every tag in the encode table is 4 bytes long. -/
theorem icon_types_tag_len : ∀ e ∈ ICON_TYPES, (strBytes e.1).length = 4 := by
  decide

/-- Every chunk the encode loop builds carries a 4-byte tag. -/
theorem create_icns_chunks_tag_len (r : Nat → List Nat) (w h : Nat) :
    ∀ c ∈ create_icns_chunks r w h, c.typeId.length = 4 := by
  intro c hc
  rw [create_icns_chunks_eq] at hc
  rcases List.mem_map.mp hc with ⟨e, he, rfl⟩
  exact icon_types_tag_len e (List.mem_of_mem_filter he)

/-- C4: for every container produced by the encode path (any resampler,
any source size whose container stays within the 32-bit length field),
decoding the serialized container recovers exactly the ordered
(tag, payload) pairs that were appended. -/
theorem c4_round_trip (r : Nat → List Nat) (w h : Nat)
    (h32 : 8 + (chunksBytes (create_icns_chunks r w h)).length < 4294967296) :
    decode (serialize (create_icns_chunks r w h))
      = .ok ((create_icns_chunks r w h).map fun c => (c.typeId, c.payload)) :=
  decode_serialize _ (create_icns_chunks_tag_len r w h) h32

/-- C4 witness: the 16x16 container with empty payloads. -/
theorem c4_round_trip_w :
    decode (serialize (create_icns_chunks (fun _ => []) 16 16))
      = .ok ((create_icns_chunks (fun _ => []) 16 16).map
          fun c => (c.typeId, c.payload)) :=
  c4_round_trip (fun _ => []) 16 16 (by decide)

/-- Reading a strict prefix of a well-formed chunk stream, against the
stream's full declared length, fails with `TruncatedChunk` wherever the
cut lands. -/
theorem decodeChunks_truncated (cs : List Chunk) (m : Nat)
    (h4 : ∀ c ∈ cs, c.typeId.length = 4)
    (hp : ∀ c ∈ cs, c.payload.length < 4294967296)
    (hm : m < (chunksBytes cs).length) :
    decodeChunks ((chunksBytes cs).take m) ((chunksBytes cs).length)
      = .error .truncatedChunk := by
  induction cs generalizing m with
  | nil => simp [chunksBytes] at hm
  | cons c cs ih =>
    have h4c : c.typeId.length = 4 := h4 c (List.mem_cons_self c cs)
    have hpc : c.payload.length < 4294967296 := hp c (List.mem_cons_self c cs)
    have h4r : ∀ x ∈ cs, x.typeId.length = 4 := fun x hx => h4 x (List.mem_cons_of_mem c hx)
    have hpr : ∀ x ∈ cs, x.payload.length < 4294967296 := fun x hx => hp x (List.mem_cons_of_mem c hx)
    rw [chunksBytes_cons] at hm ⊢
    set A := c.typeId ++ be32 c.payload.length with hAdef
    set B := c.payload ++ chunksBytes cs with hBdef
    have hA : A.length = 8 := by simp [hAdef, be32, h4c]
    have hBlen : B.length = c.payload.length + (chunksBytes cs).length := by
      simp [hBdef]
    have hlen : (A ++ B).length = 8 + c.payload.length + (chunksBytes cs).length := by
      simp [List.length_append, hA, hBlen]
      omega
    have hbuflen : ((A ++ B).take m).length = m := by
      simp [List.length_take]
      omega
    rw [decodeChunks]
    rw [if_neg (by omega), if_neg (by omega)]
    by_cases hm8 : m < 8
    · rw [if_pos (by omega)]
    · rw [if_neg (by omega)]
      have hsplit : (A ++ B).take m = A ++ B.take (m - 8) := by
        rw [List.take_append_eq_append_take, List.take_of_length_le (by omega), hA]
      have ht1 : ((A ++ B).take m).take 4 = c.typeId := by
        rw [hsplit, hAdef, List.append_assoc]
        exact List.take_left' h4c
      have ht2 : (((A ++ B).take m).drop 4).take 4 = be32 c.payload.length := by
        rw [hsplit, hAdef, List.append_assoc, List.drop_left' h4c]
        exact List.take_left' rfl
      have ht3 : ((A ++ B).take m).drop 8 = B.take (m - 8) := by
        rw [hsplit]
        exact List.drop_left' hA
      have hBtlen : (B.take (m - 8)).length = m - 8 := by
        simp [List.length_take]
        omega
      simp only [ht1, ht2, ht3, hBtlen, be32dec_be32 c.payload.length hpc]
      by_cases hmp : m - 8 < c.payload.length
      · rw [if_pos (by omega)]
      · rw [if_neg (by omega), if_neg (by omega)]
        have hdp : (B.take (m - 8)).drop c.payload.length
            = (chunksBytes cs).take (m - 8 - c.payload.length) := by
          rw [hBdef, List.take_append_eq_append_take,
            List.take_of_length_le (by omega), List.drop_append_eq_append_drop,
            List.drop_eq_nil_of_le (by omega)]
          simp
        have hrem : (A ++ B).length - (8 + c.payload.length)
            = (chunksBytes cs).length := by
          omega
        rw [hdp, hrem, ih (m - 8 - c.payload.length) h4r hpr (by omega)]

/-- C6: truncating an encoded container anywhere after its header —
including one byte short of the declared total — makes decode fail with
`TruncatedChunk`; no partial payload is ever returned. -/
theorem c6_truncation (cs : List Chunk) (n : Nat)
    (h4 : ∀ c ∈ cs, c.typeId.length = 4)
    (h32 : 8 + (chunksBytes cs).length < 4294967296)
    (hn8 : 8 ≤ n) (hnL : n < (serialize cs).length) :
    decode ((serialize cs).take n) = .error .truncatedChunk := by
  have hp : ∀ c ∈ cs, c.payload.length < 4294967296 := by
    intro c hc
    have := payload_le cs c hc
    omega
  have hser : serialize cs
      = (MAGIC ++ be32 (8 + (chunksBytes cs).length)) ++ chunksBytes cs := by
    simp [serialize, List.append_assoc]
  have hH : (MAGIC ++ be32 (8 + (chunksBytes cs).length)).length = 8 := by
    simp [MAGIC, be32, strBytes]
  have hlen : (serialize cs).length = 8 + (chunksBytes cs).length := by
    rw [hser]
    simp [List.length_append, MAGIC, strBytes, be32]
    omega
  have hsplit : (serialize cs).take n
      = (MAGIC ++ be32 (8 + (chunksBytes cs).length))
          ++ (chunksBytes cs).take (n - 8) := by
    rw [hser, List.take_append_eq_append_take, List.take_of_length_le (by omega), hH]
  have hblen : ((serialize cs).take n).length = n := by
    simp [List.length_take]
    omega
  have hmag : ((serialize cs).take n).take 4 = MAGIC := by
    rw [hsplit, List.append_assoc]
    exact List.take_left' rfl
  have htot : be32dec ((((serialize cs).take n).drop 4).take 4)
      = 8 + (chunksBytes cs).length := by
    rw [hsplit, List.append_assoc, List.drop_left' (by simp [MAGIC, strBytes])]
    rw [List.take_left' (show (be32 (8 + (chunksBytes cs).length)).length = 4 from rfl)]
    exact be32dec_be32 _ h32
  have h8 : ((serialize cs).take n).drop 8 = (chunksBytes cs).take (n - 8) := by
    rw [hsplit]
    exact List.drop_left' hH
  have hsub : 8 + (chunksBytes cs).length - 8 = (chunksBytes cs).length := by
    omega
  rw [decode]
  rw [if_neg (by omega), if_neg (by simp [hmag])]
  simp only [htot, h8, hsub]
  rw [if_neg (by omega)]
  exact decodeChunks_truncated cs (n - 8) h4 hp (by omega)

/-- C6 witness: the one-chunk container cut one byte short of its
declared 19-byte total. -/
theorem c6_truncation_w :
    decode ((serialize csW).take 18) = .error .truncatedChunk :=
  c6_truncation csW 18 (by decide) (by decide) (by decide) (by decide)

end PngToIcns
